import Mathlib

/-!
Verification development for the SQL database agent repository
(`agent.py`, `tools.py`, `utils.py`).

The Python source is shallowly embedded: strings are Lean `String`s
(processed through their underlying `List Char`), Python dicts are
association lists that preserve insertion order, the sqlite database and
the language model are abstract parameters (`DB`, `outs : Nat → String`),
and exceptions are explicit constructors.  Regular expressions used by the
source (`re.search`, `re.findall`) are embedded as character-level scanners
with the exact backtracking semantics of the patterns involved.
All functions that claims evaluate on concrete inputs are structurally
recursive (fuel-based where needed) so the kernel can compute them.
-/

namespace SQLAgentModel

/-! ## Character classes (ASCII fragment of Python `str`/`re` semantics) -/

/-- Python whitespace (`str.strip`, regex `\s`), ASCII fragment. -/
def isPySpace (c : Char) : Bool :=
  c = ' ' || c = '\t' || c = '\n' || c = '\r' || c = '\x0b' || c = '\x0c'

/-- Regex `\w` word character (ASCII fragment, as used by `\b` boundaries). -/
def isWordChar (c : Char) : Bool :=
  ('A' ≤ c && c ≤ 'Z') || ('a' ≤ c && c ≤ 'z') || ('0' ≤ c && c ≤ '9') || c = '_'

/-- First character of an identifier in the validator's table regex. -/
def identStartB (c : Char) : Bool :=
  ('A' ≤ c && c ≤ 'Z') || ('a' ≤ c && c ≤ 'z') || c = '_'

/-- Subsequent identifier characters in the validator's table regex. -/
def identCharB (c : Char) : Bool :=
  identStartB c || ('0' ≤ c && c ≤ '9')

/-- Python `str.upper` on a character, ASCII fragment (written as an
explicit 26-way case split so that character-class lemmas are by case
analysis and `decide`). -/
def pyCharUpper (c : Char) : Char :=
  match c with
  | 'a' => 'A' | 'b' => 'B' | 'c' => 'C' | 'd' => 'D' | 'e' => 'E' | 'f' => 'F'
  | 'g' => 'G' | 'h' => 'H' | 'i' => 'I' | 'j' => 'J' | 'k' => 'K' | 'l' => 'L'
  | 'm' => 'M' | 'n' => 'N' | 'o' => 'O' | 'p' => 'P' | 'q' => 'Q' | 'r' => 'R'
  | 's' => 'S' | 't' => 'T' | 'u' => 'U' | 'v' => 'V' | 'w' => 'W' | 'x' => 'X'
  | 'y' => 'Y' | 'z' => 'Z' | c => c

/-! ## List-of-characters utilities mirroring Python string methods -/

/-- Drop a maximal run of `p`-characters from the right end (Python `rstrip`). -/
def dropTrailing (p : Char → Bool) (l : List Char) : List Char :=
  (l.reverse.dropWhile p).reverse

/-- Python `str.strip()` on the character list. -/
def pyStripL (l : List Char) : List Char :=
  dropTrailing isPySpace (l.dropWhile isPySpace)

/-- Python `str.strip()`. -/
def pyStripStr (s : String) : String := ⟨pyStripL s.data⟩

/-- Python `str.upper()` (ASCII fragment). -/
def pyUpperStr (s : String) : String := ⟨s.data.map pyCharUpper⟩

/-- Python `str.strip(chars)` for a single character argument. -/
def stripCharEnds (c : Char) (l : List Char) : List Char :=
  dropTrailing (fun d => d = c) (l.dropWhile (fun d => d = c))

/-- Python `str.rstrip(chars)` for a single character argument. -/
def pyRstripCharStr (s : String) (c : Char) : String :=
  ⟨dropTrailing (fun d => d = c) s.data⟩

/-- Python `str.count` of a single character. -/
def countChar (s : String) (c : Char) : Nat :=
  s.data.count c

/-- Python `sep.join(xs)`. -/
def joinSep (sep : String) : List String → String
  | [] => ""
  | [x] => x
  | x :: y :: rest => x ++ sep ++ joinSep sep (y :: rest)

/-- Python `s[:n]` (slicing by characters). -/
def pyTake (s : String) (n : Nat) : String := ⟨s.data.take n⟩

/-- Occurrence of `m` as a contiguous sublist of `l` (Python `in` on strings),
as a Boolean scanner. -/
def containsSub (m : List Char) : List Char → Bool
  | [] => m.isPrefixOf []
  | c :: rest => m.isPrefixOf (c :: rest) || containsSub m rest

/-- Is the first character (if any) a non-word character?  Encodes the
right-hand `\b` boundary of a keyword occurrence. -/
def headNonWord (l : List Char) : Bool :=
  match l.head? with
  | none => true
  | some c => !isWordChar c

/-- Is the last character (if any) a non-word character?  Encodes the
left-hand `\b` boundary of a keyword occurrence. -/
def lastNonWord (l : List Char) : Bool :=
  match l.getLast? with
  | none => true
  | some c => !isWordChar c

/-- Whole-word occurrence of `kw` in `s` (regex `\bKW\b` where `kw` consists
of word characters): some position where `kw` is a contiguous sublist whose
neighbours on both sides are absent or non-word.  `prevW` records whether the
character just before the current position is a word character. -/
def hasWholeWordAux (kw : List Char) (prevW : Bool) : List Char → Bool
  | [] => false
  | c :: rest =>
    (kw.isPrefixOf (c :: rest) && !prevW && headNonWord ((c :: rest).drop kw.length)) ||
    hasWholeWordAux kw (isWordChar c) rest

/-- Regex search for `\bKW\b` (case handled by the caller, who uppercases). -/
def hasWholeWord (kw : List Char) (s : List Char) : Bool :=
  hasWholeWordAux kw false s

/-! ## The SQL safety validator (`utils.validate_sql`) -/

/-- The forbidden write/DDL keywords, in the order the source lists them. -/
def forbiddenKeywords : List String :=
  ["INSERT", "UPDATE", "DELETE", "DROP", "ALTER",
   "CREATE", "TRUNCATE", "REPLACE", "PRAGMA"]

/-- One pass of `re.findall(key + "\\s+([A-Za-z_][A-Za-z0-9_]*)", text)`:
non-overlapping left-to-right scan; on failure at a position the scan
advances one character, on success it resumes after the captured token.
Fuel-based so the kernel can evaluate it. -/
def scanKeyTables (key : List Char) : Nat → List Char → List String
  | 0, _ => []
  | _, [] => []
  | fuel + 1, c :: rest =>
    if key.isPrefixOf (c :: rest) then
      let after := (c :: rest).drop key.length
      let ws := after.takeWhile isPySpace
      if ws.isEmpty then scanKeyTables key fuel rest
      else
        match after.drop ws.length with
        | [] => scanKeyTables key fuel rest
        | d :: ds =>
          if identStartB d then
            (⟨d :: ds.takeWhile identCharB⟩ : String) ::
              scanKeyTables key fuel (ds.dropWhile identCharB)
          else scanKeyTables key fuel rest
    else scanKeyTables key fuel rest

/-- Table tokens referenced after `FROM` / `JOIN` (`utils.py` lines 47-57):
the `FROM` pass followed by the `JOIN` pass, concatenated. -/
def extractTables (qU : String) : List String :=
  scanKeyTables "FROM".data (qU.data.length + 1) qU.data ++
  scanKeyTables "JOIN".data (qU.data.length + 1) qU.data

/-- `table.strip('"').strip("'").strip('`')` from the validator. -/
def stripQuotes (t : String) : String :=
  ⟨stripCharEnds '`' (stripCharEnds '\'' (stripCharEnds '"' t.data))⟩

/-- The rejection message of the table allow-list check. -/
def unknownTableMsg (table : String) (allowed : List String) : String :=
  "Unknown or disallowed table '" ++ table ++ "'. Available tables: " ++
    joinSep ", " allowed ++ ". Use list_tables or describe_table first."

/-- Stages 3-7 of the validator (`utils.py` lines 47-80): table allow-list,
statement-separator count, trailing-semicolon strip, row-cap injection. -/
def validateTablesStage (query_stripped query_upper : String)
    (allowed_tables : List String) : Bool × String :=
  let tables_in_query := extractTables query_upper
  let allowed_upper := allowed_tables.map pyUpperStr
  match tables_in_query.find? (fun t => !(allowed_upper.contains (stripQuotes t))) with
  | some table => (false, unknownTableMsg table allowed_tables)
  | none =>
    if countChar query_stripped ';' > 1 then (false, "Multiple statements not allowed")
    else
      let query_clean := pyRstripCharStr query_stripped ';'
      if !(containsSub "LIMIT".data query_upper.data) then
        (true, query_clean ++ " LIMIT 100")
      else (true, query_clean)

/-- `utils.validate_sql`: `(is_valid, possibly_modified_query_or_error)`. -/
def validate_sql (query : String) (allowed_tables : List String) : Bool × String :=
  let query_stripped := pyStripStr query
  let query_upper := pyUpperStr query_stripped
  if !("SELECT".data.isPrefixOf query_upper.data) then
    (false, "Only SELECT queries are allowed (read-only mode)")
  else
    match forbiddenKeywords.find? (fun kw => hasWholeWord kw.data query_upper.data) with
    | some kw =>
      (false, "Forbidden keyword '" ++ kw ++ "' detected. Only SELECT queries allowed.")
    | none => validateTablesStage query_stripped query_upper allowed_tables

/-! ## JSON values (model of the values produced by `json.loads` /
`ast.literal_eval`, restricted to the shapes this code base exchanges:
objects, arrays, strings, integers, booleans, `null`). -/

inductive Json where
  | null : Json
  | bool : Bool → Json
  | num : Int → Json
  | str : String → Json
  | arr : List Json → Json
  | obj : List (String × Json) → Json
deriving Repr

/-- Python dict assignment `d[k] = v`: overwrite in place, else append. -/
def assocSet (l : List (String × Json)) (k : String) (v : Json) :
    List (String × Json) :=
  if l.any (fun p => p.1 = k) then
    l.map (fun p => if p.1 = k then (k, v) else p)
  else l ++ [(k, v)]

/-- Association-list lookup (Python `dict.get`). -/
def assocGet (l : List (String × Json)) (k : String) : Option Json :=
  (l.find? (fun p => p.1 = k)).map (fun p => p.2)

/-- JSON whitespace skipped by `json.loads` (space, tab, newline, return). -/
def jsonWsSkip (l : List Char) : List Char :=
  l.dropWhile (fun c => c = ' ' || c = '\t' || c = '\n' || c = '\r')

/-- Value of a hexadecimal digit, for `\uXXXX` escapes (by code point
ranges: digits, then the two letter blocks). -/
def hexDigitVal (c : Char) : Option Nat :=
  let n := c.toNat
  if 48 ≤ n && n ≤ 57 then some (n - 48)
  else if 97 ≤ n && n ≤ 102 then some (n - 87)
  else if 65 ≤ n && n ≤ 70 then some (n - 55)
  else none

/-- Code point named by four hexadecimal digits. -/
def hexQuad (a b c d : Char) : Option Nat :=
  match hexDigitVal a, hexDigitVal b, hexDigitVal c, hexDigitVal d with
  | some va, some vb, some vc, some vd =>
    some ([vb, vc, vd].foldl (fun acc v => acc * 16 + v) va)
  | _, _, _, _ => none

/-- The short escapes of JSON (and, for the `ast.literal_eval` fallback,
an escaped single quote inside a single-quoted literal, keyed on `q`). -/
def escChar (q e : Char) : Option Char :=
  if e = 'n' then some '\n'
  else if e = 't' then some '\t'
  else if e = 'r' then some '\r'
  else if e = '"' then some '"'
  else if e = '\\' then some '\\'
  else if e = '/' then some '/'
  else if e = 'b' then some '\x08'
  else if e = 'f' then some '\x0c'
  else if e = '\'' then (if q = '\'' then some '\'' else none)
  else none

/-- String-literal body scanner shared by the strict JSON decoder and the
literal-structure fallback: reads up to the closing quote `q`, handling the
usual escapes; unescaped control characters are rejected as `json.loads`
does (the fallback never receives them from this code's inputs). -/
def strBodyP (q : Char) (acc : List Char) : List Char → Option (String × List Char)
  | [] => none
  | '\\' :: rest =>
    (match rest with
     | 'u' :: h1 :: h2 :: h3 :: h4 :: r2 =>
       (match hexQuad h1 h2 h3 h4 with
        | some n => strBodyP q (acc ++ [Char.ofNat n]) r2
        | none => none)
     | e :: r2 =>
       (match escChar q e with
        | some ch => strBodyP q (acc ++ [ch]) r2
        | none => none)
     | [] => none)
  | c :: rest =>
    if c = q then some (⟨acc⟩, rest)
    else if c.toNat < 32 then none
    else strBodyP q (acc ++ [c]) rest

/-- Integer literal: optional minus sign and a digit run; fractional or
exponent parts are not modelled (no claim exercises them). -/
def intLitP (l : List Char) : Option (Int × List Char) :=
  let (neg, l') := match l with
    | '-' :: rest => (true, rest)
    | _ => (false, l)
  let digits := l'.takeWhile Char.isDigit
  if digits.isEmpty then none
  else
    match l'.drop digits.length with
    | c :: _ =>
      if c = '.' || c = 'e' || c = 'E' then none
      else
        let n : Nat := digits.foldl (fun a c => a * 10 + (c.toNat - '0'.toNat)) 0
        some (if neg then -(n : Int) else (n : Int), l'.drop digits.length)
    | [] =>
      let n : Nat := digits.foldl (fun a c => a * 10 + (c.toNat - '0'.toNat)) 0
      some (if neg then -(n : Int) else (n : Int), [])

/-- Mode of the fueled recursive-descent decoder. -/
inductive PMode where
  | val : PMode
  | arrRest : List Json → PMode
  | objRest : List (String × Json) → PMode

/-- Fueled decoder for JSON-like literal structures.  `py = false` is strict
`json.loads` syntax (double-quoted strings, `true/false/null`); `py = true`
is the `ast.literal_eval` fragment used as last-resort fallback
(single- or double-quoted strings, `True/False/None`). -/
def jsonP (py : Bool) : Nat → PMode → List Char → Option (Json × List Char)
  | 0, _, _ => none
  | fuel + 1, .val, l =>
    match jsonWsSkip l with
    | [] => none
    | '"' :: rest => (strBodyP '"' [] rest).map (fun p => (.str p.1, p.2))
    | '\'' :: rest =>
      if py then (strBodyP '\'' [] rest).map (fun p => (.str p.1, p.2))
      else none
    | '\x7b' :: rest =>
      (match jsonWsSkip rest with
       | '\x7d' :: r2 => some (.obj [], r2)
       | _ => jsonP py fuel (.objRest []) rest)
    | '[' :: rest =>
      (match jsonWsSkip rest with
       | ']' :: r2 => some (.arr [], r2)
       | _ => jsonP py fuel (.arrRest []) rest)
    | l' =>
      if (if py then "True".data else "true".data).isPrefixOf l' then
        some (.bool true, l'.drop 4)
      else if (if py then "False".data else "false".data).isPrefixOf l' then
        some (.bool false, l'.drop 5)
      else if (if py then "None".data else "null".data).isPrefixOf l' then
        some (.null, l'.drop 4)
      else (intLitP l').map (fun p => (.num p.1, p.2))
  | fuel + 1, .arrRest acc, l =>
    match jsonP py fuel .val l with
    | none => none
    | some (v, r) =>
      match jsonWsSkip r with
      | ',' :: r2 => jsonP py fuel (.arrRest (acc ++ [v])) r2
      | ']' :: r2 => some (.arr (acc ++ [v]), r2)
      | _ => none
  | fuel + 1, .objRest acc, l =>
    match jsonWsSkip l with
    | '"' :: rest =>
      (strBodyP '"' [] rest).bind (fun p =>
        match jsonWsSkip p.2 with
        | ':' :: r3 =>
          match jsonP py fuel .val r3 with
          | none => none
          | some (v, r4) =>
            (match jsonWsSkip r4 with
             | ',' :: r5 => jsonP py fuel (.objRest (assocSet acc p.1 v)) r5
             | '\x7d' :: r5 => some (.obj (assocSet acc p.1 v), r5)
             | _ => none)
        | _ => none)
    | '\'' :: rest =>
      if py then
        (strBodyP '\'' [] rest).bind (fun p =>
          match jsonWsSkip p.2 with
          | ':' :: r3 =>
            match jsonP py fuel .val r3 with
            | none => none
            | some (v, r4) =>
              (match jsonWsSkip r4 with
               | ',' :: r5 => jsonP py fuel (.objRest (assocSet acc p.1 v)) r5
               | '\x7d' :: r5 => some (.obj (assocSet acc p.1 v), r5)
               | _ => none)
          | _ => none)
      else none
    | _ => none

/-- Python `json.loads` on the modelled fragment: decode one value and
require only whitespace to remain. -/
def jsonLoads (s : String) : Option Json :=
  match jsonP false (2 * s.data.length + 4) .val s.data with
  | some (v, rest) => if (jsonWsSkip rest).isEmpty then some v else none
  | none => none

/-- Python `ast.literal_eval` on the modelled fragment. -/
def pyLiteralEval (s : String) : Option Json :=
  match jsonP true (2 * s.data.length + 4) .val s.data with
  | some (v, rest) => if (jsonWsSkip rest).isEmpty then some v else none
  | none => none

/-- `utils.fix_json_quotes`: return unchanged when already valid JSON, else
replace every single quote by a double quote. -/
def fix_json_quotes (json_str : String) : String :=
  match jsonLoads json_str with
  | some _ => json_str
  | none => ⟨json_str.data.map (fun c => if c = '\'' then '"' else c)⟩

/-! ## `utils.parse_action` (regex `ACTION:\s*(\w+)\s*(\{[^}]*\})?`) -/

/-- Case-insensitive literal match of `pat` at the head of the text
(ASCII case folding, as `re.IGNORECASE` behaves on this protocol). -/
def matchesCI : List Char → List Char → Bool
  | [], _ => true
  | _ :: _, [] => false
  | p :: ps, c :: cs => (pyCharUpper p = pyCharUpper c) && matchesCI ps cs

/-- Does the text contain `pat` (case-insensitively) at some position? -/
def containsCI : List Char → List Char → Bool
  | _, [] => false
  | pat, c :: rest => matchesCI pat (c :: rest) || containsCI pat rest

/-- `re.search` for the action pattern: at each start position require the
literal `ACTION:`, greedy whitespace, at least one word character (else the
overall match fails at this start and the scan advances one character),
another whitespace run, and optionally a brace group `\x7b[^\x7d]*\x7d`
(which matches empty when no closing brace follows). -/
def findActionAux : List Char → Option (String × Option String)
  | [] => none
  | c :: rest =>
    if matchesCI "ACTION:".data (c :: rest) then
      let after := (c :: rest).drop 7
      let afterWs := after.dropWhile isPySpace
      let tok := afterWs.takeWhile isWordChar
      if tok.isEmpty then findActionAux rest
      else
        match (afterWs.drop tok.length).dropWhile isPySpace with
        | '\x7b' :: inner =>
          let body := inner.takeWhile (fun d => !(d = '\x7d'))
          (match inner.drop body.length with
           | '\x7d' :: _ => some (⟨tok⟩, some ⟨'\x7b' :: (body ++ ['\x7d'])⟩)
           | _ => some (⟨tok⟩, none))
        | _ => some (⟨tok⟩, none)
    else findActionAux rest

/-- The `ParseError` message for a missing `ACTION` marker. -/
def noActionMsg : String :=
  "No valid ACTION found in response. Expected format: ACTION: tool_name\x7bjson_args\x7d"

/-- Argument text that failed every decoding strategy. -/
def couldNotParseMsg (clean : String) : String :=
  "Could not parse JSON arguments: " ++ clean

/-- Non-mapping argument structure. -/
def notDictMsg : String := "ACTION arguments must be a JSON object (dict)"

/-- `utils.parse_action`: `Except` models the raised `ValueError`. -/
def parse_action (text : String) : Except String (String × List (String × Json)) :=
  match findActionAux text.data with
  | none => .error noActionMsg
  | some (tool_name, none) => .ok (tool_name, [])
  | some (tool_name, some args_str) =>
    let clean := pyStripStr args_str
    match jsonLoads clean with
    | some (.obj kvs) => .ok (tool_name, kvs)
    | some _ => .error notDictMsg
    | none =>
      match jsonLoads (fix_json_quotes clean) with
      | some (.obj kvs) => .ok (tool_name, kvs)
      | some _ => .error notDictMsg
      | none =>
        match pyLiteralEval clean with
        | some (.obj kvs) => .ok (tool_name, kvs)
        | some _ => .error notDictMsg
        | none => .error (couldNotParseMsg clean)

/-! ## `utils.extract_section` (regex `SECTION:\s*(.+?)(?=markers|$)`) -/

/-- The recognised section markers of the lookahead alternation. -/
def sectionMarkers : List String :=
  ["THOUGHT:", "ACTION:", "OBSERVATION:", "FINAL ANSWER:"]

/-- Does one of the markers start (case-insensitively) at this position? -/
def markerAt (l : List Char) : Bool :=
  sectionMarkers.any (fun m => matchesCI m.data l)

/-- Characters up to the first position where a marker starts (the lazy
`.+?` expansion bounded by the lookahead; the `$`-before-final-newline
variant only differs by a trailing newline, which the subsequent `strip`
removes either way). -/
def takeUntilMarker : List Char → List Char
  | [] => []
  | c :: rest => if markerAt (c :: rest) then [] else c :: takeUntilMarker rest

/-- Scan for the leftmost position where `pat` (the section name plus `:`)
matches and at least one character remains for `.+?`; return the raw
captured content. -/
def extract_sectionAux (pat : List Char) : List Char → Option (List Char)
  | [] => none
  | c :: rest =>
    if matchesCI pat (c :: rest) then
      match (c :: rest).drop pat.length with
      | [] => extract_sectionAux pat rest
      | j@(_ :: _) =>
        let w := j.takeWhile isPySpace
        if (j.drop w.length).isEmpty then
          -- the whole remainder is whitespace: `\s*` gives one char back
          some (j.drop (w.length - 1))
        else
          some
            (match j.drop w.length with
             | d :: ds => d :: takeUntilMarker ds
             | [] => [])
    else extract_sectionAux pat rest

/-- `utils.extract_section`: captured content stripped, or `""`. -/
def extract_section (text : String) (sect : String) : String :=
  match extract_sectionAux (sect.data ++ [':']) text.data with
  | some content => ⟨pyStripL content⟩
  | none => ""

/-! ## Serialisation back to text (`json.dumps` and Python `repr`, on the
ASCII value shapes this program produces) -/

/-- Lower-case hexadecimal digit (code point arithmetic). -/
def hexDigitChar (n : Nat) : Char :=
  Char.ofNat (if n ≤ 9 then 48 + n else 87 + n)

/-- Four-digit hexadecimal rendering for `\uXXXX` escapes, via the base-16
digit expansion padded to width four. -/
def hex4 (n : Nat) : List Char :=
  let ds := (Nat.toDigits 16 (n % 65536))
  List.replicate (4 - ds.length) '0' ++ ds

/-- `json.dumps` escaping of one character (`ensure_ascii` default). -/
def jsonEscChar (c : Char) : List Char :=
  if c = '"' then ['\\', '"']
  else if c = '\\' then ['\\', '\\']
  else if c = '\n' then ['\\', 'n']
  else if c = '\r' then ['\\', 'r']
  else if c = '\t' then ['\\', 't']
  else if c = '\x08' then ['\\', 'b']
  else if c = '\x0c' then ['\\', 'f']
  else if c.toNat < 32 || c.toNat > 126 then '\\' :: 'u' :: hex4 c.toNat
  else [c]

/-- `json.dumps` of a string. -/
def jsonEscStr (s : String) : String :=
  ⟨'"' :: s.data.foldr (fun c acc => jsonEscChar c ++ acc) ['"']⟩

/-- Python `repr` escaping of one character inside quote `q`. -/
def pyReprChar (q c : Char) : List Char :=
  if c = '\\' then ['\\', '\\']
  else if c = q then ['\\', q]
  else if c = '\n' then ['\\', 'n']
  else if c = '\r' then ['\\', 'r']
  else if c = '\t' then ['\\', 't']
  else if c.toNat < 32 || c.toNat = 127 then
    '\\' :: 'x' :: [hexDigitChar (c.toNat / 16 % 16), hexDigitChar (c.toNat % 16)]
  else [c]

/-- Python `repr` of a string (single quotes unless the string contains a
single quote and no double quote). -/
def pyReprStr (s : String) : String :=
  let q := if s.data.contains '\'' && !(s.data.contains '"') then '"' else '\''
  ⟨q :: s.data.foldr (fun c acc => pyReprChar q c ++ acc) [q]⟩

mutual

/-- `json.dumps` (default separators `", "` and `": "`). -/
def jsonDumps : Json → String
  | .null => "null"
  | .bool true => "true"
  | .bool false => "false"
  | .num n => toString n
  | .str s => jsonEscStr s
  | .arr xs => "[" ++ jsonDumpsList xs ++ "]"
  | .obj kvs => "\x7b" ++ jsonDumpsFields kvs ++ "\x7d"

/-- Comma-separated array elements of `json.dumps`. -/
def jsonDumpsList : List Json → String
  | [] => ""
  | [x] => jsonDumps x
  | x :: y :: r => jsonDumps x ++ ", " ++ jsonDumpsList (y :: r)

/-- Comma-separated object members of `json.dumps`. -/
def jsonDumpsFields : List (String × Json) → String
  | [] => ""
  | [(k, v)] => jsonEscStr k ++ ": " ++ jsonDumps v
  | (k, v) :: kv :: r =>
    jsonEscStr k ++ ": " ++ jsonDumps v ++ ", " ++ jsonDumpsFields (kv :: r)

end

mutual

/-- Python `repr` of JSON-shaped values. -/
def pyReprJson : Json → String
  | .null => "None"
  | .bool true => "True"
  | .bool false => "False"
  | .num n => toString n
  | .str s => pyReprStr s
  | .arr xs => "[" ++ pyReprList xs ++ "]"
  | .obj kvs => "\x7b" ++ pyReprFields kvs ++ "\x7d"

/-- Comma-separated list elements of Python `repr`. -/
def pyReprList : List Json → String
  | [] => ""
  | [x] => pyReprJson x
  | x :: y :: r => pyReprJson x ++ ", " ++ pyReprList (y :: r)

/-- Comma-separated dict items of Python `repr`. -/
def pyReprFields : List (String × Json) → String
  | [] => ""
  | [(k, v)] => pyReprStr k ++ ": " ++ pyReprJson v
  | (k, v) :: kv :: r =>
    pyReprStr k ++ ": " ++ pyReprJson v ++ ", " ++ pyReprFields (kv :: r)

end

/-- Python `repr` of an argument dict (used in the `ACTION:` trace line
`f"{tool_name}{args}"`). -/
def pyReprDict (kvs : List (String × Json)) : String :=
  pyReprJson (.obj kvs)

/-! ## The tool registry (`tools.py`) over an abstract sqlite database -/

/-- Abstract database collaborator: the catalog (what
`_list_tables` returns), the combined `PRAGMA table_info` +
`SELECT COUNT(*)` interaction of `_describe_table` (an `Except.error`
is the engine exception text, kind included), and query execution
(columns and rows on success, `f"{type(e).__name__}: {e}"` on failure). -/
structure DB where
  tables : List String
  describeTable : String → Except String (List (String × String) × Int)
  runQuery : String → Except String (List String × List (List Json))

/-- Python values a tool returns: `_list_tables` yields a list of strings,
the other tools yield dicts. -/
inductive PyValue where
  | pylist : List String → PyValue
  | pydict : List (String × Json) → PyValue
deriving Repr

/-- `ToolRegistry._list_tables`. -/
def list_tables (db : DB) : List String := db.tables

/-- Successful `_describe_table` result shape. -/
def describeResult (t : String) (cols : List (String × String)) (rc : Int) : PyValue :=
  .pydict
    [("table_name", .str t),
     ("columns", .arr (cols.map (fun p => Json.obj [("name", .str p.1), ("type", .str p.2)]))),
     ("row_count", .num rc)]

/-- `ToolRegistry._query_database`: validate against the live table list,
reject as an `error` dict, else execute. -/
def query_database (db : DB) (query : String) : PyValue :=
  let v := validate_sql query (list_tables db)
  if !v.1 then .pydict [("error", .str v.2)]
  else
    match db.runQuery v.2 with
    | .ok (cols, rows) =>
      .pydict
        [("columns", .arr (cols.map Json.str)),
         ("rows", .arr (rows.map Json.arr)),
         ("row_count", .num rows.length)]
    | .error e => .pydict [("error", .str e)]

/-- The registry's tool names, in registration order. -/
def toolNames : List String := ["list_tables", "describe_table", "query_database"]

/-- `tool.call(**args)` for each registered tool: keyword binding against
the tool lambda's parameters (a mismatch raises `TypeError`), then the tool
body.  Exception messages other than the ones claims pin down are modelled
by kind with a schematic message. -/
def toolCall (db : DB) (name : String) (args : List (String × Json)) :
    Except (String × String) PyValue :=
  if name = "list_tables" then
    if args.isEmpty then .ok (.pylist (list_tables db))
    else .error ("TypeError", "unexpected keyword arguments for list_tables")
  else if name = "describe_table" then
    match args with
    | [(k, v)] =>
      if k = "table_name" then
        match v with
        | .str t =>
          (match db.describeTable t with
           | .ok cr => .ok (describeResult t cr.1 cr.2)
           | .error m => .error ("OperationalError", m))
        | _ => .error ("OperationalError", "invalid table name")
      else .error ("TypeError", "unexpected keyword arguments for describe_table")
    | _ => .error ("TypeError", "unexpected keyword arguments for describe_table")
  else if name = "query_database" then
    match args with
    | [(k, v)] =>
      if k = "query" then
        match v with
        | .str q => .ok (query_database db q)
        | _ => .error ("AttributeError", "argument is not a string")
      else .error ("TypeError", "unexpected keyword arguments for query_database")
    | _ => .error ("TypeError", "unexpected keyword arguments for query_database")
  else .error ("KeyError", name)

/-! ## The agent (`agent.py`) -/

/-- `agent._norm_table_arg`: alias `table` to `table_name` (the original
`table` key is kept, exactly as the source's in-place dict update does). -/
def normTableArg (args : List (String × Json)) : List (String × Json) :=
  match assocGet args "table" with
  | some v => assocSet args "table_name" v
  | none => args

/-- `agent.EvidenceCache`.  Schema and row-count keys are `Option String`:
`none` models the `None` key Python produces when both aliases are absent
or falsy. -/
structure EvidenceCache where
  tables : List String
  schema : List (Option String × List String)
  row_counts : List (Option String × Int)
deriving Repr, DecidableEq

/-- Generic Python-dict assignment for the cache's keyed fields. -/
def assocSetK {α β : Type} [DecidableEq α] (l : List (α × β)) (k : α) (v : β) :
    List (α × β) :=
  if l.any (fun p => p.1 = k) then l.map (fun p => if p.1 = k then (k, v) else p)
  else l ++ [(k, v)]

/-- Python truthiness of JSON-shaped values. -/
def jsonTruthy : Json → Bool
  | .null => false
  | .bool b => b
  | .num n => !(n = 0)
  | .str s => !(s = "")
  | .arr xs => !xs.isEmpty
  | .obj kvs => !kvs.isEmpty

/-- Extract the column names `[c["name"] for c in cols]` when every element
is a dict carrying a string name (a missing name would raise inside the
comprehension, which the surrounding `try` swallows, leaving the cache as
it was). -/
def colNames (cols : List Json) : Option (List String) :=
  cols.mapM (fun c =>
    match c with
    | .obj h =>
      (match assocGet h "name" with
       | some (.str s) => some s
       | _ => none)
    | _ => none)

/-- `agent.SQLAgent._ingest_observation` (only reached when the tool call
succeeded; any internal failure leaves the cache unchanged). -/
def ingest_observation (tool_name : String) (out : PyValue)
    (args : List (String × Json)) (cache : EvidenceCache) : EvidenceCache :=
  if tool_name = "list_tables" then
    match out with
    | .pylist l => { cache with tables := l }
    | .pydict d =>
      (match assocGet d "tables" with
       | some (.arr xs) =>
         { cache with
           tables := xs.filterMap (fun j => match j with | .str s => some s | _ => none) }
       | _ => cache)
  else if tool_name = "describe_table" then
    match out with
    | .pydict d =>
      let tblv : Option Json :=
        match assocGet args "table_name" with
        | some v => if jsonTruthy v then some v else assocGet args "table"
        | none => assocGet args "table"
      let tbl : Option String :=
        match tblv with
        | some (.str t) => some t
        | _ => none
      let cache1 :=
        match assocGet d "columns" with
        | some (.arr cols) =>
          (match cols.head? with
           | some (.obj h) =>
             if (assocGet h "name").isSome then
               (match colNames cols with
                | some names => { cache with schema := assocSetK cache.schema tbl names }
                | none => cache)
             else cache
           | some _ =>
             -- `schema[tbl] = cols` for a plain string list
             (match cols.mapM (fun j => match j with | .str s => some s | _ => none) with
              | some strs => { cache with schema := assocSetK cache.schema tbl strs }
              | none => cache)
           | none => { cache with schema := assocSetK cache.schema tbl [] })
        | _ => cache
      (match assocGet d "row_count" with
       | some (.num n) => { cache1 with row_counts := assocSetK cache1.row_counts tbl n }
       | _ => cache1)
    | _ => cache
  else cache

/-- Observation rendering of `agent.SQLAgent._call_tool` (lines 60-66):
lists via `str(...)` capped at 2000 characters, dicts via `json.dumps` with
an explicit truncation marker. -/
def renderOut : PyValue → String
  | .pylist l => pyTake ("[" ++ joinSep ", " (l.map pyReprStr) ++ "]") 2000
  | .pydict d =>
    let body := jsonDumps (.obj d)
    if body.data.length > 2000 then pyTake body 2000 ++ " ...[truncated]" else body

/-- Mutable agent state (`history_blocks`, `logs`, `cache`), initialised
empty by `SQLAgent.__init__` and never reset by `run`. -/
structure AgentState where
  history_blocks : List String
  logs : List String
  cache : EvidenceCache
deriving Repr, DecidableEq

/-- The state `SQLAgent.__init__` establishes. -/
def initState : AgentState := ⟨[], [], ⟨[], [], []⟩⟩

/-- What one loop iteration does to control flow. -/
inductive StepKind where
  | ret : String → StepKind
  | exn : String → StepKind
  | cont : StepKind
deriving Repr, DecidableEq

/-- One loop iteration's outcome: control flow, the updated state, and
whether a registered tool actually executed. -/
structure StepRes where
  result : StepKind
  state : AgentState
  dispatched : Bool
deriving Repr, DecidableEq

/-- `thought or '(none)'`. -/
def thoughtOrNone (thought : String) : String :=
  if thought = "" then "(none)" else thought

/-- The corrective observation of the no-evidence FINAL ANSWER guard. -/
def noEvidenceObs : String :=
  "You are answering without running any tool yet. Please gather evidence using one ACTION before concluding."

/-- Synthetic trace block appended by the no-evidence guard
(`agent.py` lines 147-155). -/
def noEvidenceBlock (thought : String) : String :=
  "THOUGHT: " ++ thoughtOrNone thought ++ "\nACTION: N/A\nOBSERVATION: " ++ noEvidenceObs

/-- Trace block appended when `parse_action` raised
(`agent.py` lines 169-176). -/
def parseFailBlock (thought err : String) : String :=
  "THOUGHT: " ++ (if thought = "" then "(parsing failed)" else thought) ++
    "\nACTION: N/A\nOBSERVATION: ParserError: " ++ err ++
    ". Ensure valid JSON with double quotes."

/-- Trace block appended after a dispatch (`agent.py` lines 183-187);
`f"{tool_name}{args}"` renders the (alias-normalised) dict via `repr`. -/
def dispatchBlock (thought tool_name : String) (args : List (String × Json))
    (observation : String) : String :=
  "THOUGHT: " ++ thoughtOrNone thought ++ "\nACTION: " ++ tool_name ++
    pyReprDict args ++ "\nOBSERVATION: " ++ observation

/-- The `self.logs` line of each step. -/
def logLine (stepIdx : Nat) (thought : String) : String :=
  "[STEP " ++ toString stepIdx ++ "] THOUGHT: " ++ thoughtOrNone thought

/-- The agent state right after the unconditional `self.logs.append`
(`agent.py` line 141), before any branching. -/
def logState (stepIdx : Nat) (s : AgentState) (llm_out : String) : AgentState :=
  { s with logs := s.logs ++ [logLine stepIdx (extract_section llm_out "THOUGHT")] }

/-- One iteration of `SQLAgent.run`'s loop body (`agent.py` lines 131-187):
log the thought, return a grounded `FINAL ANSWER`, defer an ungrounded one
with a synthetic block, convert parse failures into corrective blocks,
dispatch tools (an unregistered name raises out of the loop, `get_tool`
being outside the `try`), and append the observation block. -/
def stepAgent (db : DB) (stepIdx : Nat) (s : AgentState) (llm_out : String) : StepRes :=
  let thought := extract_section llm_out "THOUGHT"
  let s1 : AgentState := logState stepIdx s llm_out
  let final := extract_section llm_out "FINAL ANSWER"
  if !(final = "") then
    if s1.history_blocks.isEmpty then
      { result := .cont,
        state := { s1 with history_blocks := s1.history_blocks ++ [noEvidenceBlock thought] },
        dispatched := false }
    else
      -- freshness and consistency checks only print warnings
      { result := .ret final, state := s1, dispatched := false }
  else
    match parse_action llm_out with
    | .error e =>
      { result := .cont,
        state := { s1 with history_blocks := s1.history_blocks ++ [parseFailBlock thought e] },
        dispatched := false }
    | .ok (tool_name, args0) =>
      let args := if tool_name = "describe_table" then normTableArg args0 else args0
      if !(toolNames.contains tool_name) then
        { result := .exn ("Tool '" ++ tool_name ++ "' not found"), state := s1,
          dispatched := false }
      else
        match toolCall db tool_name args with
        | .error ke =>
          let observation := "ERROR: " ++ ke.1 ++ ": " ++ ke.2
          { result := .cont,
            state := { s1 with
              history_blocks := s1.history_blocks ++
                [dispatchBlock thought tool_name args observation] },
            dispatched := true }
        | .ok out =>
          let cache' := ingest_observation tool_name out args s1.cache
          let observation := renderOut out
          { result := .cont,
            state := { s1 with
              cache := cache',
              history_blocks := s1.history_blocks ++
                [dispatchBlock thought tool_name args observation] },
            dispatched := true }

/-- Python `history_blocks[-3:]`. -/
def lastN (n : Nat) (l : List String) : List String := l.drop (l.length - n)

/-- The degraded result returned on step-budget exhaustion
(`agent.py` lines 189-191). -/
def maxStepMsg (history : List String) : String :=
  "Max step limit reached. Here's what I tried:\n" ++
    joinSep "\n\n" (lastN 3 history) ++
    "\n\nConsider refining the question or being more specific."

/-- How a `run` call ends: a returned final answer, the degraded
step-budget message, or an uncaught exception. -/
inductive RunResult where
  | answer : String → RunResult
  | degraded : String → RunResult
  | exn : String → RunResult
deriving Repr, DecidableEq

/-- The loop of `SQLAgent.run`, with the model's per-step outputs given by
`outs`; returns the outcome together with the final agent state (which the
Python object keeps). -/
def runAux (db : DB) (outs : Nat → String) :
    Nat → Nat → AgentState → RunResult × AgentState
  | 0, _, s => (.degraded (maxStepMsg s.history_blocks), s)
  | fuel + 1, stepIdx, s =>
    let r := stepAgent db stepIdx s (outs stepIdx)
    match r.result with
    | .ret a => (.answer a, r.state)
    | .exn m => (.exn m, r.state)
    | .cont => runAux db outs fuel (stepIdx + 1) r.state

/-- `SQLAgent.run` on the agent's current state. -/
def SQLAgent_run (db : DB) (outs : Nat → String) (step_limit : Nat)
    (s : AgentState) : RunResult × AgentState :=
  runAux db outs step_limit 0 s

/-! ## Concrete fixtures used by witnesses and counterexamples -/

/-- A mock model: scripted responses, `""` past the end. -/
def mockOuts (rs : List String) : Nat → String := fun i => rs.getD i ""

/-- A concrete database: two tables, a describe call that raises the engine
error, an empty query result. -/
def dbEx : DB where
  tables := ["emp", "sample"]
  describeTable := fun t => .error ("no such table: " ++ t)
  runQuery := fun _ => .ok ([], [])

/-- The model output of the `DELETE FROM sample` scenario. -/
def deleteOut : String :=
  "THOUGHT: Try query\nACTION: query_database\x7b\"query\": \"DELETE FROM sample\"\x7d"

/-- The observation block that scenario appends. -/
def deleteBlock : String :=
  "THOUGHT: Try query\nACTION: query_database\x7b'query': 'DELETE FROM sample'\x7d\nOBSERVATION: \x7b\"error\": \"Only SELECT queries are allowed (read-only mode)\"\x7d"

/-- A model output requesting a tool that is not in the registry. -/
def ghostOut : String := "ACTION: ghost_tool\x7b\x7d"

/-- Does the output's parsed action (when it parses at all) name a
registered tool?  Outputs violating this make the dispatch raise. -/
def toolOkB (out : String) : Bool :=
  match parse_action out with
  | .error _ => true
  | .ok p => toolNames.contains p.1

/-- First question of the state-leak scenario: one `list_tables` call, then
a final answer. -/
def leakOuts1 : Nat → String :=
  mockOuts ["THOUGHT: list\nACTION: list_tables\x7b\x7d", "FINAL ANSWER: two tables"]

/-- Second question of the state-leak scenario: an immediate final answer. -/
def leakOuts2 : Nat → String := fun _ => "FINAL ANSWER: leaked"

/-- The trace block the first leak-scenario question records. -/
def leakBlock : String :=
  "THOUGHT: list\nACTION: list_tables\x7b\x7d\nOBSERVATION: ['emp', 'sample']"

/-! ## Character-class lemmas -/

theorem isPySpace_isWordChar (c : Char) (h : isPySpace c = true) :
    isWordChar c = false := by
  simp only [isPySpace, Bool.or_eq_true, decide_eq_true_eq] at h
  rcases h with ((((h | h) | h) | h) | h) | h <;> subst h <;> decide

theorem isWordChar_isPySpace (c : Char) (h : isWordChar c = true) :
    isPySpace c = false := by
  cases hp : isPySpace c with
  | false => rfl
  | true => rw [isPySpace_isWordChar c hp] at h; cases h

theorem isPySpace_pyCharUpper (c : Char) :
    isPySpace (pyCharUpper c) = isPySpace c := by
  unfold pyCharUpper
  split <;> rfl

theorem pyCharUpper_eq_semi (c : Char) : (pyCharUpper c = ';') ↔ (c = ';') := by
  unfold pyCharUpper
  split <;> first | exact Iff.rfl | decide

/-! ## takeWhile / dropWhile / dropTrailing lemmas -/

theorem dropWhile_append_sentry {p : Char → Bool} {x y : List Char}
    (hy : ∀ d, y.head? = some d → p d = false) :
    (x ++ y).dropWhile p = x.dropWhile p ++ y := by
  induction x with
  | nil =>
    simp only [List.nil_append, List.dropWhile_nil]
    cases y with
    | nil => rfl
    | cons d ds => simp [List.dropWhile_cons, hy d rfl]
  | cons c cs ih =>
    simp only [List.cons_append, List.dropWhile_cons]
    split <;> simp [ih]

theorem dropTrailing_append_sentry {p : Char → Bool} {x y : List Char}
    (hx : ∀ d, x.reverse.head? = some d → p d = false) :
    dropTrailing p (x ++ y) = x ++ dropTrailing p y := by
  unfold dropTrailing
  rw [List.reverse_append, dropWhile_append_sentry hx, List.reverse_append,
    List.reverse_reverse]

/-! ## Substring and whole-word occurrence lemmas -/

theorem infix_dropWhile {p : Char → Bool} {m y : List Char} (hm : m ≠ [])
    (hmp : ∀ c ∈ m, p c = false) (h : m <:+: y) : m <:+: y.dropWhile p := by
  induction y with
  | nil => exact absurd (List.infix_nil.mp h) hm
  | cons c rest ih =>
    rw [List.dropWhile_cons]
    split
    · rename_i hc
      rcases List.infix_cons_iff.mp h with hpre | htail
      · rcases List.prefix_cons_iff.mp hpre with rfl | ⟨t, rfl, -⟩
        · exact absurd rfl hm
        · exact absurd (hmp c (by simp)) (by simp [hc])
      · exact ih htail
    · exact h

theorem infix_dropTrailing {p : Char → Bool} {m y : List Char} (hm : m ≠ [])
    (hmp : ∀ c ∈ m, p c = false) (h : m <:+: y) : m <:+: dropTrailing p y := by
  unfold dropTrailing
  apply List.reverse_infix.mp
  rw [List.reverse_reverse]
  exact infix_dropWhile (by simpa using hm) (fun c hc => hmp c (by simpa using hc))
    (List.reverse_infix.mpr h)

theorem containsSub_iff {m l : List Char} : containsSub m l = true ↔ m <:+: l := by
  induction l with
  | nil =>
    simp [containsSub, List.isPrefixOf_iff_prefix]
  | cons c rest ih =>
    simp [containsSub, List.isPrefixOf_iff_prefix, ih, List.infix_cons_iff]

theorem lastNonWord_cons_of_ne (c : Char) {l : List Char} (h : l ≠ []) :
    lastNonWord (c :: l) = lastNonWord l := by
  cases l with
  | nil => exact absurd rfl h
  | cons x xs => unfold lastNonWord; rw [List.getLast?_cons_cons]

theorem hasWholeWordAux_iff {kw : List Char} (hk : kw ≠ []) (pw : Bool)
    (s : List Char) :
    hasWholeWordAux kw pw s = true ↔
      ∃ l r, s = l ++ kw ++ r ∧
        (if l = [] then pw = false else lastNonWord l = true) ∧
        headNonWord r = true := by
  induction s generalizing pw with
  | nil =>
    simp only [hasWholeWordAux]
    constructor
    · intro h; cases h
    · rintro ⟨l, r, hs, -, -⟩
      rcases List.append_eq_nil.mp hs.symm with ⟨h1, -⟩
      rcases List.append_eq_nil.mp h1 with ⟨-, hkw⟩
      exact absurd hkw hk
  | cons c rest ih =>
    constructor
    · intro h
      simp only [hasWholeWordAux, Bool.or_eq_true, Bool.and_eq_true] at h
      rcases h with ⟨⟨hpre, hpw⟩, hhead⟩ | htail
      · rcases List.isPrefixOf_iff_prefix.mp hpre with ⟨t, ht⟩
        refine ⟨[], t, by simpa using ht.symm, by simpa using hpw, ?_⟩
        rwa [show (c :: rest).drop kw.length = t from by
          rw [← ht]; exact List.drop_left .. ] at hhead
      · rcases (ih (isWordChar c)).mp htail with ⟨l, r, hs, hl, hr⟩
        refine ⟨c :: l, r, by simp [hs], ?_, hr⟩
        rw [if_neg (by simp)]
        by_cases hle : l = []
        · subst hle
          simp only [reduceIte] at hl
          simp [lastNonWord, hl]
        · rw [lastNonWord_cons_of_ne c hle]
          rwa [if_neg hle] at hl
    · rintro ⟨l, r, hs, hl, hr⟩
      cases l with
      | nil =>
        rw [if_pos rfl] at hl
        simp only [List.nil_append] at hs
        simp only [hasWholeWordAux, Bool.or_eq_true, Bool.and_eq_true]
        left
        refine ⟨⟨List.isPrefixOf_iff_prefix.mpr ⟨r, hs.symm⟩, by simp [hl]⟩, ?_⟩
        rwa [show (c :: rest).drop kw.length = r from by
          rw [hs]; exact List.drop_left .. ]
      | cons c' l' =>
        have hc : c' = c ∧ rest = l' ++ kw ++ r := by
          have : c' :: (l' ++ kw ++ r) = c :: rest := by simpa using hs.symm
          exact ⟨(List.cons.injEq .. ▸ this).1, ((List.cons.injEq .. ▸ this).2).symm⟩
        obtain ⟨rfl, hrest⟩ := hc
        simp only [hasWholeWordAux, Bool.or_eq_true]
        right
        apply (ih (isWordChar c')).mpr
        refine ⟨l', r, hrest, ?_, hr⟩
        rw [if_neg (by simp)] at hl
        by_cases hle : l' = []
        · subst hle
          rw [if_pos rfl]
          simpa [lastNonWord] using hl
        · rw [if_neg hle]
          rwa [lastNonWord_cons_of_ne c' hle] at hl

theorem hasWholeWord_iff {kw : List Char} (hk : kw ≠ []) (s : List Char) :
    hasWholeWord kw s = true ↔
      ∃ l r, s = l ++ kw ++ r ∧ lastNonWord l = true ∧ headNonWord r = true := by
  rw [hasWholeWord, hasWholeWordAux_iff hk]
  constructor
  · rintro ⟨l, r, hs, hl, hr⟩
    refine ⟨l, r, hs, ?_, hr⟩
    by_cases hle : l = []
    · subst hle; rfl
    · rwa [if_neg hle] at hl
  · rintro ⟨l, r, hs, hl, hr⟩
    refine ⟨l, r, hs, ?_, hr⟩
    by_cases hle : l = []
    · rw [if_pos hle]
    · rwa [if_neg hle]

/-! ## Interaction of `strip` with whole-word occurrences -/

theorem dropTrailing_decomp (p : Char → Bool) (l : List Char) :
    l = dropTrailing p l ++ (l.reverse.takeWhile p).reverse ∧
      ∀ c ∈ (l.reverse.takeWhile p).reverse, p c = true := by
  constructor
  · unfold dropTrailing
    conv_lhs => rw [← List.reverse_reverse l]
    rw [← List.reverse_append]
    rw [List.takeWhile_append_dropWhile]
  · intro c hc
    exact List.mem_takeWhile_imp (List.mem_reverse.mp hc)

theorem pyStripL_decomp (s : List Char) :
    ∃ a b, s = a ++ pyStripL s ++ b ∧
      (∀ c ∈ a, isPySpace c = true) ∧ (∀ c ∈ b, isPySpace c = true) := by
  obtain ⟨hm, hb⟩ := dropTrailing_decomp isPySpace (s.dropWhile isPySpace)
  refine ⟨s.takeWhile isPySpace, ((s.dropWhile isPySpace).reverse.takeWhile isPySpace).reverse,
    ?_, fun c hc => List.mem_takeWhile_imp hc, hb⟩
  conv_lhs => rw [← List.takeWhile_append_dropWhile isPySpace s]
  rw [List.append_assoc]
  exact congrArg _ hm

theorem getLast?_of_dropWhile_getLast? {p : Char → Bool} {l : List Char} {x : Char}
    (h : (l.dropWhile p).getLast? = some x) : l.getLast? = some x := by
  have h0 := @List.getLast?_append Char (l.takeWhile p) (l.dropWhile p)
  rw [List.takeWhile_append_dropWhile] at h0
  rw [h0, h]
  rfl

theorem head?_of_dropTrailing_head? {p : Char → Bool} {l : List Char} {x : Char}
    (h : (dropTrailing p l).head? = some x) : l.head? = some x := by
  obtain ⟨hm, -⟩ := dropTrailing_decomp p l
  rw [congrArg List.head? hm, List.head?_append, h]
  rfl

theorem head?_append_left {x y : List Char} (hx : x ≠ []) :
    (x ++ y).head? = x.head? := by
  cases x with
  | nil => exact absurd rfl hx
  | cons a as => rfl

theorem mem_of_head?_eq_some {l : List Char} {d : Char} (h : l.head? = some d) :
    d ∈ l := by
  rcases List.head?_eq_some_iff.mp h with ⟨ys, rfl⟩
  exact List.mem_cons_self d ys

theorem hasWholeWord_pyStrip {kw s : List Char} (hk : kw ≠ [])
    (hw : ∀ c ∈ kw, isWordChar c = true) (h : hasWholeWord kw s = true) :
    hasWholeWord kw (pyStripL s) = true := by
  rw [hasWholeWord_iff hk] at h ⊢
  obtain ⟨l, r, rfl, hl, hr⟩ := h
  have hkwrev : kw.reverse ≠ [] := by simpa using hk
  have hstep1 : (l ++ kw ++ r).dropWhile isPySpace =
      l.dropWhile isPySpace ++ kw ++ r := by
    rw [List.append_assoc, dropWhile_append_sentry, List.append_assoc]
    intro d hd
    rw [head?_append_left hk] at hd
    exact isWordChar_isPySpace d (hw d (mem_of_head?_eq_some hd))
  have hstep2 : dropTrailing isPySpace (l.dropWhile isPySpace ++ kw ++ r) =
      l.dropWhile isPySpace ++ kw ++ dropTrailing isPySpace r := by
    rw [dropTrailing_append_sentry]
    intro d hd
    rw [List.reverse_append, head?_append_left hkwrev] at hd
    have hd_mem : d ∈ kw := List.mem_reverse.mp (mem_of_head?_eq_some hd)
    exact isWordChar_isPySpace d (hw d hd_mem)
  refine ⟨l.dropWhile isPySpace, dropTrailing isPySpace r, ?_, ?_, ?_⟩
  · unfold pyStripL
    rw [hstep1, hstep2]
  · unfold lastNonWord
    cases hgl : (l.dropWhile isPySpace).getLast? with
    | none => rfl
    | some x =>
      unfold lastNonWord at hl
      rw [getLast?_of_dropWhile_getLast? hgl] at hl
      exact hl
  · unfold headNonWord
    cases hhd : (dropTrailing isPySpace r).head? with
    | none => rfl
    | some x =>
      unfold headNonWord at hr
      rw [head?_of_dropTrailing_head? hhd] at hr
      exact hr

theorem hasWholeWord_of_pyStrip {kw s : List Char} (hk : kw ≠ [])
    (h : hasWholeWord kw (pyStripL s) = true) : hasWholeWord kw s = true := by
  rw [hasWholeWord_iff hk] at h ⊢
  obtain ⟨l, r, hstrip, hl, hr⟩ := h
  obtain ⟨a, b, hs, ha, hb⟩ := pyStripL_decomp s
  refine ⟨a ++ l, r ++ b, ?_, ?_, ?_⟩
  · rw [hs, hstrip]
    simp [List.append_assoc]
  · unfold lastNonWord
    rw [List.getLast?_append]
    cases hgl : l.getLast? with
    | some x =>
      unfold lastNonWord at hl
      rw [hgl] at hl
      exact hl
    | none =>
      cases hga : a.getLast? with
      | none => rfl
      | some y =>
        have hy := ha y (List.mem_of_getLast?_eq_some hga)
        simp [Option.or, isPySpace_isWordChar y hy]
  · unfold headNonWord
    rw [List.head?_append]
    cases hhd : r.head? with
    | some x =>
      unfold headNonWord at hr
      rw [hhd] at hr
      exact hr
    | none =>
      cases hhb : b.head? with
      | none => rfl
      | some y =>
        have hy := hb y (mem_of_head?_eq_some hhb)
        simp [Option.or, isPySpace_isWordChar y hy]

/-! ## Commutation of case folding with strip operations -/

theorem dropWhile_space_map_upper (l : List Char) :
    (l.map pyCharUpper).dropWhile isPySpace =
      (l.dropWhile isPySpace).map pyCharUpper := by
  rw [List.dropWhile_map]
  rw [show (isPySpace ∘ pyCharUpper) = isPySpace from funext isPySpace_pyCharUpper]

theorem dropTrailing_space_map_upper (l : List Char) :
    dropTrailing isPySpace (l.map pyCharUpper) =
      (dropTrailing isPySpace l).map pyCharUpper := by
  unfold dropTrailing
  rw [← List.map_reverse, dropWhile_space_map_upper, ← List.map_reverse]

theorem pyStripL_map_upper (l : List Char) :
    pyStripL (l.map pyCharUpper) = (pyStripL l).map pyCharUpper := by
  unfold pyStripL
  rw [dropWhile_space_map_upper, dropTrailing_space_map_upper]

theorem dropTrailing_semi_map_upper (l : List Char) :
    dropTrailing (fun d => d = ';') (l.map pyCharUpper) =
      (dropTrailing (fun d => d = ';') l).map pyCharUpper := by
  unfold dropTrailing
  rw [← List.map_reverse, List.dropWhile_map, ← List.map_reverse]
  rw [show ((fun d => decide (d = ';')) ∘ pyCharUpper) = (fun d => decide (d = ';')) from
    funext (fun c => decide_eq_decide.mpr (pyCharUpper_eq_semi c))]

theorem infix_append_left {m x y : List Char} (h : m <:+: y) : m <:+: x ++ y := by
  obtain ⟨u, v, huv⟩ := h
  exact ⟨x ++ u, v, by rw [← huv]; simp [List.append_assoc]⟩

/-! ## Facts about the concrete forbidden-keyword list -/

theorem forbidden_keyword_chars :
    ∀ kw ∈ forbiddenKeywords, kw.data ≠ [] ∧ ∀ c ∈ kw.data, isWordChar c = true := by
  decide

/-! ## C2: the forbidden-keyword stage of the validator -/

/-- C2: every query whose uppercased text contains a forbidden keyword as a
whole word (word-boundary match, also when adjacent to punctuation) is
rejected by `validate_sql`; and when no forbidden keyword occurs as a whole
word, the keyword stage never causes the rejection — `validate_sql` is the
initial `SELECT` check followed directly by the later stages
(`validateTablesStage`), so identifiers like `DROPBOX` or `insertion_date`
never trigger the keyword check. -/
theorem validate_sql_forbidden_keywords (query : String) (allowed_tables : List String) :
    (∀ kw, kw ∈ forbiddenKeywords →
      hasWholeWord kw.data (pyUpperStr query).data = true →
      (validate_sql query allowed_tables).1 = false)
    ∧ ((∀ kw ∈ forbiddenKeywords, hasWholeWord kw.data (pyUpperStr query).data = false) →
      validate_sql query allowed_tables =
        (if !("SELECT".data.isPrefixOf (pyUpperStr (pyStripStr query)).data) then
          (false, "Only SELECT queries are allowed (read-only mode)")
         else validateTablesStage (pyStripStr query) (pyUpperStr (pyStripStr query))
           allowed_tables)) := by
  constructor
  · intro kw hkw hword
    obtain ⟨hk1, hk2⟩ := forbidden_keyword_chars kw hkw
    have hword' : hasWholeWord kw.data (pyUpperStr (pyStripStr query)).data = true := by
      show hasWholeWord kw.data (pyStripL query.data |>.map pyCharUpper) = true
      rw [← pyStripL_map_upper]
      exact hasWholeWord_pyStrip hk1 hk2 hword
    simp only [validate_sql]
    split
    · rfl
    · split
      · rfl
      · rename_i hnone
        exact absurd hword' (by simpa using List.find?_eq_none.mp hnone kw hkw)
  · intro hno
    have hnone : forbiddenKeywords.find?
        (fun kw => hasWholeWord kw.data (pyUpperStr (pyStripStr query)).data) = none := by
      apply List.find?_eq_none.mpr
      intro kw hkw
      obtain ⟨hk1, -⟩ := forbidden_keyword_chars kw hkw
      simp only [Bool.not_eq_true]
      have : hasWholeWord kw.data (pyUpperStr (pyStripStr query)).data = true →
          hasWholeWord kw.data (pyUpperStr query).data = true := by
        intro h
        apply hasWholeWord_of_pyStrip hk1
        rw [show pyStripL (pyUpperStr query).data = (pyUpperStr (pyStripStr query)).data from
          pyStripL_map_upper query.data]
        exact h
      cases hcur : hasWholeWord kw.data (pyUpperStr (pyStripStr query)).data with
      | false => rfl
      | true => exact absurd (this hcur) (by simp [hno kw hkw])
    simp only [validate_sql, hnone]

/-- Witness for C2: `(DROP)` adjacent to punctuation rejects; with
`insertion_date` the keyword stage is skipped entirely. -/
theorem validate_sql_forbidden_keywords_witness :
    (validate_sql "SELECT 1 WHERE (DROP)" ["sample"]).1 = false ∧
    validate_sql "SELECT insertion_date FROM sample" ["sample"] =
      validateTablesStage (pyStripStr "SELECT insertion_date FROM sample")
        (pyUpperStr (pyStripStr "SELECT insertion_date FROM sample")) ["sample"] := by
  refine ⟨(validate_sql_forbidden_keywords "SELECT 1 WHERE (DROP)" ["sample"]).1
    "DROP" (by decide) (by decide), ?_⟩
  have h := (validate_sql_forbidden_keywords "SELECT insertion_date FROM sample"
    ["sample"]).2 (by decide)
  rw [h]
  decide

/-! ## C3: the table allow-list stage of the validator -/

/-- C3: `validate_sql` never accepts a query referencing (via the
`FROM`/`JOIN` scan) a table outside the allowed set — on acceptance every
extracted token, after quote-stripping, is contained (case-insensitively)
in the allowed list; and whenever the earlier stages pass and some
extracted token is unmatched, the verdict is a rejection whose message
lists the known tables. -/
theorem validate_sql_table_allowlist (query : String) (allowed_tables : List String) :
    ((validate_sql query allowed_tables).1 = true →
      ∀ t ∈ extractTables (pyUpperStr (pyStripStr query)),
        (allowed_tables.map pyUpperStr).contains (stripQuotes t) = true)
    ∧ (∀ t, ("SELECT".data.isPrefixOf (pyUpperStr (pyStripStr query)).data) = true →
        forbiddenKeywords.find?
          (fun kw => hasWholeWord kw.data (pyUpperStr (pyStripStr query)).data) = none →
        (extractTables (pyUpperStr (pyStripStr query))).find?
          (fun t' => !((allowed_tables.map pyUpperStr).contains (stripQuotes t'))) = some t →
        validate_sql query allowed_tables = (false, unknownTableMsg t allowed_tables)) := by
  constructor
  · intro hacc t ht
    simp only [validate_sql] at hacc
    split at hacc
    · exact absurd hacc (by simp)
    · split at hacc
      · exact absurd hacc (by simp)
      · simp only [validateTablesStage] at hacc
        split at hacc
        · exact absurd hacc (by simp)
        · rename_i hnone
          have := List.find?_eq_none.mp hnone t ht
          simpa using this
  · intro t hsel hnone hfind
    simp only [validate_sql, hsel, Bool.not_true, if_false, hnone,
      validateTablesStage, hfind]
    rfl

/-- Witness for C3: with allowed tables `sample, emp`, `SELECT * FROM
sample` passes the table stage, and `SELECT * FROM ghost` is rejected
naming `GHOST` and listing the known tables. -/
theorem validate_sql_table_allowlist_witness :
    (∀ t ∈ extractTables (pyUpperStr (pyStripStr "SELECT * FROM sample")),
      ((["sample", "emp"].map pyUpperStr).contains (stripQuotes t)) = true) ∧
    validate_sql "SELECT * FROM ghost" ["sample", "emp"] =
      (false, unknownTableMsg "GHOST" ["sample", "emp"]) := by
  refine ⟨(validate_sql_table_allowlist "SELECT * FROM sample" ["sample", "emp"]).1
    (by decide), ?_⟩
  exact (validate_sql_table_allowlist "SELECT * FROM ghost" ["sample", "emp"]).2
    "GHOST" (by decide) (by decide) (by decide)

/-! ## C5: the row-cap stage of the validator -/

/-- C5: every accepted query text contains a row-limit clause (the
substring `LIMIT` in its uppercase form), and when the input had no such
clause the accepted text is exactly the cleaned query with ` LIMIT 100`
appended. -/
theorem validate_sql_row_cap (query : String) (allowed_tables : List String)
    (s : String) (h : validate_sql query allowed_tables = (true, s)) :
    containsSub "LIMIT".data (pyUpperStr s).data = true ∧
    (containsSub "LIMIT".data (pyUpperStr (pyStripStr query)).data = false →
      s = pyRstripCharStr (pyStripStr query) ';' ++ " LIMIT 100") := by
  simp only [validate_sql] at h
  split at h
  · exact absurd h (by simp)
  · split at h
    · exact absurd h (by simp)
    · simp only [validateTablesStage] at h
      split at h
      · exact absurd h (by simp)
      · split at h
        · exact absurd h (by simp)
        · split at h
          · -- no LIMIT present: the cap is appended
            rename_i hnolim
            have hs : s = pyRstripCharStr (pyStripStr query) ';' ++ " LIMIT 100" :=
              (Prod.mk.injEq .. ▸ h).2.symm
            constructor
            · subst hs
              apply containsSub_iff.mpr
              show "LIMIT".data <:+:
                ((pyRstripCharStr (pyStripStr query) ';').data ++ (" LIMIT 100").data).map
                  pyCharUpper
              rw [List.map_append]
              apply infix_append_left
              rw [show (" LIMIT 100").data.map pyCharUpper = (" LIMIT 100").data from by decide]
              decide
            · intro _; exact hs
          · -- LIMIT already present: the cleaned text keeps it
            rename_i hlim
            have hs : s = pyRstripCharStr (pyStripStr query) ';' :=
              (Prod.mk.injEq .. ▸ h).2.symm
            have hpres : containsSub "LIMIT".data
                (pyUpperStr (pyStripStr query)).data = true := by
              cases hcur : containsSub "LIMIT".data (pyUpperStr (pyStripStr query)).data with
              | true => rfl
              | false => exact absurd (by simp [hcur]) hlim
            constructor
            · subst hs
              apply containsSub_iff.mpr
              show "LIMIT".data <:+:
                (dropTrailing (fun d => d = ';') (pyStripStr query).data).map pyCharUpper
              rw [← dropTrailing_semi_map_upper]
              exact infix_dropTrailing (by decide) (by decide)
                (containsSub_iff.mp hpres)
            · intro hc
              exact absurd hpres (by simp [hc])

/-- Witness for C5: `SELECT * FROM sample` is accepted with the cap
appended, and the accepted text contains the clause. -/
theorem validate_sql_row_cap_witness :
    containsSub "LIMIT".data (pyUpperStr "SELECT * FROM sample LIMIT 100").data = true ∧
    ("SELECT * FROM sample LIMIT 100" : String) =
      pyRstripCharStr (pyStripStr "SELECT * FROM sample") ';' ++ " LIMIT 100" := by
  have h := validate_sql_row_cap "SELECT * FROM sample" ["sample"]
    "SELECT * FROM sample LIMIT 100" (by decide)
  exact ⟨h.1, h.2 (by decide)⟩

/-! ## Exhaustive branch description of one loop iteration -/

theorem stepAgent_shape (db : DB) (i : Nat) (s : AgentState) (out : String) :
    (extract_section out "FINAL ANSWER" ≠ "" ∧ s.history_blocks = [] ∧
      stepAgent db i s out =
        ⟨.cont, { logState i s out with history_blocks :=
          (logState i s out).history_blocks ++
            [noEvidenceBlock (extract_section out "THOUGHT")] }, false⟩)
    ∨ (extract_section out "FINAL ANSWER" ≠ "" ∧ s.history_blocks ≠ [] ∧
        stepAgent db i s out =
          ⟨.ret (extract_section out "FINAL ANSWER"), logState i s out, false⟩)
    ∨ (extract_section out "FINAL ANSWER" = "" ∧ ∃ e, parse_action out = .error e ∧
        stepAgent db i s out =
          ⟨.cont, { logState i s out with history_blocks :=
            (logState i s out).history_blocks ++
              [parseFailBlock (extract_section out "THOUGHT") e] }, false⟩)
    ∨ (extract_section out "FINAL ANSWER" = "" ∧
        ∃ n args0, parse_action out = .ok (n, args0) ∧
          ((toolNames.contains n = false ∧
            stepAgent db i s out =
              ⟨.exn ("Tool '" ++ n ++ "' not found"), logState i s out, false⟩)
          ∨ (∃ ke, toolNames.contains n = true ∧
              toolCall db n (if n = "describe_table" then normTableArg args0 else args0) =
                .error ke ∧
              stepAgent db i s out =
                ⟨.cont, { logState i s out with history_blocks :=
                  (logState i s out).history_blocks ++
                    [dispatchBlock (extract_section out "THOUGHT") n
                      (if n = "describe_table" then normTableArg args0 else args0)
                      ("ERROR: " ++ ke.1 ++ ": " ++ ke.2)] }, true⟩)
          ∨ (∃ outv, toolNames.contains n = true ∧
              toolCall db n (if n = "describe_table" then normTableArg args0 else args0) =
                .ok outv ∧
              stepAgent db i s out =
                ⟨.cont, { logState i s out with
                  cache := ingest_observation n outv
                    (if n = "describe_table" then normTableArg args0 else args0)
                    (logState i s out).cache,
                  history_blocks := (logState i s out).history_blocks ++
                    [dispatchBlock (extract_section out "THOUGHT") n
                      (if n = "describe_table" then normTableArg args0 else args0)
                      (renderOut outv)] }, true⟩))) := by
  by_cases hfin : extract_section out "FINAL ANSWER" = ""
  · cases hpa : parse_action out with
    | error e =>
      refine Or.inr (Or.inr (Or.inl ⟨hfin, e, rfl, ?_⟩))
      simp only [stepAgent, hfin, hpa]
      rfl
    | ok p =>
      obtain ⟨n, args0⟩ := p
      refine Or.inr (Or.inr (Or.inr ⟨hfin, n, args0, rfl, ?_⟩))
      by_cases hm : toolNames.contains n = true
      · cases ht : toolCall db n (if n = "describe_table" then normTableArg args0 else args0) with
        | error ke =>
          refine Or.inr (Or.inl ⟨ke, hm, rfl, ?_⟩)
          simp only [stepAgent, hfin, hpa, hm, ht]
          rfl
        | ok outv =>
          refine Or.inr (Or.inr ⟨outv, hm, rfl, ?_⟩)
          simp only [stepAgent, hfin, hpa, hm, ht]
          rfl
      · have hm' : toolNames.contains n = false := by
          cases hc : toolNames.contains n with
          | false => rfl
          | true => exact absurd hc hm
        refine Or.inl ⟨hm', ?_⟩
        simp only [stepAgent, hfin, hpa, hm']
        rfl
  · by_cases hemp : s.history_blocks = []
    · refine Or.inl ⟨hfin, hemp, ?_⟩
      have hie : (logState i s out).history_blocks.isEmpty = true := by
        show s.history_blocks.isEmpty = true
        rw [hemp]
        rfl
      simp only [stepAgent, hie]
      rw [if_pos ?_]
      · rfl
      · simp [hfin]
    · refine Or.inr (Or.inl ⟨hfin, hemp, ?_⟩)
      have hie : (logState i s out).history_blocks.isEmpty = false := by
        show s.history_blocks.isEmpty = false
        cases hsh : s.history_blocks with
        | nil => exact absurd hsh hemp
        | cons a t => rfl
      simp only [stepAgent, hie]
      rw [if_pos ?_]
      · rfl
      · simp [hfin]

theorem infix_append_right {m y z : List Char} (h : m <:+: y) : m <:+: y ++ z := by
  obtain ⟨u, v, huv⟩ := h
  exact ⟨u, v ++ z, by rw [← huv]; simp [List.append_assoc]⟩

theorem containsSub_NA_noEvidence (th : String) :
    containsSub "ACTION: N/A".data (noEvidenceBlock th).data = true := by
  apply containsSub_iff.mpr
  unfold noEvidenceBlock
  rw [String.data_append, String.data_append, String.data_append]
  apply infix_append_right
  apply infix_append_left
  decide

theorem containsSub_NA_parseFail (th e : String) :
    containsSub "ACTION: N/A".data (parseFailBlock th e).data = true := by
  apply containsSub_iff.mpr
  unfold parseFailBlock
  rw [String.data_append, String.data_append, String.data_append,
    String.data_append]
  apply infix_append_right
  apply infix_append_right
  apply infix_append_left
  decide

/-! ## C1: the no-ungrounded-answer guard of `SQLAgent.run` -/

/-- C1: on any step where the turn history is empty and the model output
contains a `FINAL ANSWER` section, the loop does not return — it appends
the corrective observation block and continues; a `.ret` outcome requires a
non-empty history (and returns exactly the extracted section); and at run
level an answer is only ever produced with at least one trace block in the
final history. -/
theorem run_no_ungrounded_final (db : DB) (i : Nat) (s : AgentState) (out : String) :
    (s.history_blocks = [] → extract_section out "FINAL ANSWER" ≠ "" →
      (stepAgent db i s out).result = .cont ∧
      (stepAgent db i s out).state.history_blocks =
        [noEvidenceBlock (extract_section out "THOUGHT")] ∧
      (stepAgent db i s out).dispatched = false)
    ∧ (∀ a, (stepAgent db i s out).result = .ret a →
        s.history_blocks ≠ [] ∧ a = extract_section out "FINAL ANSWER")
    ∧ (∀ (outs : Nat → String) (fuel idx0 : Nat) (s0 : AgentState) (a : String)
        (s' : AgentState), runAux db outs fuel idx0 s0 = (.answer a, s') →
        s'.history_blocks ≠ []) := by
  refine ⟨?_, ?_, ?_⟩
  · intro hemp hfin
    rcases stepAgent_shape db i s out with
      ⟨-, -, hr⟩ | ⟨-, hne, -⟩ | ⟨hf0, -⟩ | ⟨hf0, -⟩
    · rw [hr]
      refine ⟨rfl, ?_, rfl⟩
      show (logState i s out).history_blocks ++ [_] = _
      rw [show (logState i s out).history_blocks = s.history_blocks from rfl, hemp]
      rfl
    · exact absurd hemp hne
    · exact absurd hf0 hfin
    · exact absurd hf0 hfin
  · intro a hra
    rcases stepAgent_shape db i s out with
      ⟨-, -, hr⟩ | ⟨hf, hne, hr⟩ | ⟨-, e, -, hr⟩ | ⟨-, n, args0, -, hsub⟩
    · rw [hr] at hra; cases hra
    · rw [hr] at hra
      exact ⟨hne, (StepKind.ret.injEq .. ▸ hra).symm⟩
    · rw [hr] at hra; cases hra
    · rcases hsub with ⟨-, hr⟩ | ⟨ke, -, -, hr⟩ | ⟨outv, -, -, hr⟩ <;>
        (rw [hr] at hra; cases hra)
  · intro outs fuel
    induction fuel with
    | zero =>
      intro idx0 s0 a s' h
      simp only [runAux] at h
      cases h
    | succ fuel ih =>
      intro idx0 s0 a s' h
      simp only [runAux] at h
      cases hres : (stepAgent db idx0 s0 (outs idx0)).result with
      | ret b =>
        rw [hres] at h
        have hstate : s' = (stepAgent db idx0 s0 (outs idx0)).state :=
          ((Prod.mk.injEq .. ▸ h).2).symm
        rcases stepAgent_shape db idx0 s0 (outs idx0) with
          ⟨-, -, hr⟩ | ⟨-, hne, hr⟩ | ⟨-, e, -, hr⟩ | ⟨-, n, args0, -, hsub⟩
        · rw [hr] at hres; cases hres
        · rw [hstate, hr]
          exact hne
        · rw [hr] at hres; cases hres
        · rcases hsub with ⟨-, hr⟩ | ⟨ke, -, -, hr⟩ | ⟨outv, -, -, hr⟩ <;>
            (rw [hr] at hres; cases hres)
      | exn m =>
        rw [hres] at h
        cases h
      | cont =>
        rw [hres] at h
        exact ih (idx0 + 1) _ a s' h

/-- Witness for C1: an immediate `FINAL ANSWER: 42` from the initial state
is deferred with the corrective block and dispatches nothing. -/
theorem run_no_ungrounded_final_witness :
    (stepAgent dbEx 0 initState "FINAL ANSWER: 42").result = .cont ∧
    (stepAgent dbEx 0 initState "FINAL ANSWER: 42").state.history_blocks =
      [noEvidenceBlock (extract_section "FINAL ANSWER: 42" "THOUGHT")] ∧
    (stepAgent dbEx 0 initState "FINAL ANSWER: 42").dispatched = false :=
  (run_no_ungrounded_final dbEx 0 initState "FINAL ANSWER: 42").1 rfl (by decide)

/-! ## C6: the `DELETE FROM sample` scenario -/

/-- C6: when the model requests `query_database` with the query
`DELETE FROM sample`, the appended trace block carries exactly the
observation `\x7b"error": "Only SELECT queries are allowed (read-only
mode)"\x7d` (the whole block being `deleteBlock`), the step continues
rather than terminating, and the cache is untouched — for every database
and every prior agent state. -/
theorem query_database_delete_observation (db : DB) (i : Nat) (s : AgentState) :
    stepAgent db i s deleteOut =
      ⟨.cont,
       { history_blocks := s.history_blocks ++ [deleteBlock],
         logs := s.logs ++ [logLine i "Try query"],
         cache := s.cache }, true⟩ := rfl

/-! ## C7: where trace blocks come from -/

/-- Counterexample to C7: from the empty history, a bare `FINAL ANSWER`
creates a trace block although no tool was dispatched on that step — a
synthetic block exists exactly for a terminal attempt with no evidence. -/
theorem trace_block_without_dispatch :
    (stepAgent dbEx 0 initState "FINAL ANSWER: 42").dispatched = false ∧
    (stepAgent dbEx 0 initState "FINAL ANSWER: 42").state.history_blocks =
      ["THOUGHT: (none)\nACTION: N/A\nOBSERVATION: You are answering without running any tool yet. Please gather evidence using one ACTION before concluding."] := by
  decide

/-- C7 amended: a continuing step appends exactly one trace block, and when
no tool was dispatched on that step the appended block is one of the two
synthetic blocks, recognisable by its `ACTION: N/A` line; non-continuing
steps (a returned answer or the uncaught unknown-tool exception) append
nothing. -/
theorem trace_blocks_append_sites (db : DB) (i : Nat) (s : AgentState) (out : String) :
    ((stepAgent db i s out).result = .cont →
      ∃ b, (stepAgent db i s out).state.history_blocks = s.history_blocks ++ [b] ∧
        ((stepAgent db i s out).dispatched = false →
          containsSub "ACTION: N/A".data b.data = true))
    ∧ ((stepAgent db i s out).result ≠ StepKind.cont →
        (stepAgent db i s out).state.history_blocks = s.history_blocks) := by
  constructor
  · intro hcont
    rcases stepAgent_shape db i s out with
      ⟨-, -, hr⟩ | ⟨-, -, hr⟩ | ⟨-, e, -, hr⟩ | ⟨-, n, args0, -, hsub⟩
    · exact ⟨noEvidenceBlock (extract_section out "THOUGHT"), by rw [hr]; rfl,
        fun _ => containsSub_NA_noEvidence _⟩
    · rw [hr] at hcont; cases hcont
    · exact ⟨parseFailBlock (extract_section out "THOUGHT") e, by rw [hr]; rfl,
        fun _ => containsSub_NA_parseFail _ _⟩
    · rcases hsub with ⟨-, hr⟩ | ⟨ke, -, -, hr⟩ | ⟨outv, -, -, hr⟩
      · rw [hr] at hcont; cases hcont
      · refine ⟨dispatchBlock (extract_section out "THOUGHT") n
          (if n = "describe_table" then normTableArg args0 else args0)
          ("ERROR: " ++ ke.1 ++ ": " ++ ke.2), by rw [hr]; rfl, ?_⟩
        intro hd
        rw [hr] at hd
        cases hd
      · refine ⟨dispatchBlock (extract_section out "THOUGHT") n
          (if n = "describe_table" then normTableArg args0 else args0)
          (renderOut outv), by rw [hr]; rfl, ?_⟩
        intro hd
        rw [hr] at hd
        cases hd
  · intro hnc
    rcases stepAgent_shape db i s out with
      ⟨-, -, hr⟩ | ⟨-, -, hr⟩ | ⟨-, e, -, hr⟩ | ⟨-, n, args0, -, hsub⟩
    · rw [hr] at hnc; exact absurd rfl hnc
    · rw [hr]; rfl
    · rw [hr] at hnc; exact absurd rfl hnc
    · rcases hsub with ⟨-, hr⟩ | ⟨ke, -, -, hr⟩ | ⟨outv, -, -, hr⟩
      · rw [hr]; rfl
      · rw [hr] at hnc; exact absurd rfl hnc
      · rw [hr] at hnc; exact absurd rfl hnc

/-- Witness for C7 amended: a parse-failure step appends one synthetic
`ACTION: N/A` block. -/
theorem trace_blocks_append_sites_witness :
    ∃ b, (stepAgent dbEx 0 initState "gibberish").state.history_blocks =
      initState.history_blocks ++ [b] ∧
      ((stepAgent dbEx 0 initState "gibberish").dispatched = false →
        containsSub "ACTION: N/A".data b.data = true) :=
  (trace_blocks_append_sites dbEx 0 initState "gibberish").1 (by decide)

/-! ## C4: unknown tool names versus execution errors -/

/-- Counterexample to C4: a single call naming the non-existent tool
`ghost_tool` does terminate `SQLAgent.run` — `get_tool` raises outside the
`try` of `_call_tool`, the `ValueError` propagates, and no `ERROR:`
observation is recorded in the history. -/
theorem call_tool_unknown_tool_uncaught :
    stepAgent dbEx 0 initState ghostOut =
      ⟨.exn "Tool 'ghost_tool' not found",
       ⟨[], ["[STEP 0] THOUGHT: (none)"], ⟨[], [], []⟩⟩, false⟩ := by
  decide

/-- C4 amended: a request for an unregistered tool raises an uncaught
`ValueError` (`Tool '<name>' not found`) that terminates the run with no
observation appended, while an exception raised during a registered tool's
execution is converted into an `ERROR: <kind>: <message>` observation block
and the loop continues. -/
theorem call_tool_error_handling_amended (db : DB) (i : Nat) (s : AgentState)
    (out n : String) (args0 : List (String × Json))
    (hfin : extract_section out "FINAL ANSWER" = "")
    (hpa : parse_action out = .ok (n, args0)) :
    (toolNames.contains n = false →
      stepAgent db i s out =
        ⟨.exn ("Tool '" ++ n ++ "' not found"), logState i s out, false⟩)
    ∧ (∀ ke, toolNames.contains n = true →
        toolCall db n (if n = "describe_table" then normTableArg args0 else args0) =
          .error ke →
        stepAgent db i s out =
          ⟨.cont, { logState i s out with history_blocks :=
            (logState i s out).history_blocks ++
              [dispatchBlock (extract_section out "THOUGHT") n
                (if n = "describe_table" then normTableArg args0 else args0)
                ("ERROR: " ++ ke.1 ++ ": " ++ ke.2)] }, true⟩) := by
  rcases stepAgent_shape db i s out with
    ⟨hf, -, -⟩ | ⟨hf, -, -⟩ | ⟨-, e, he, -⟩ | ⟨-, n', args0', hp', hsub⟩
  · exact absurd hfin hf
  · exact absurd hfin hf
  · rw [hpa] at he; cases he
  · rw [hpa] at hp'
    have hn : n = n' ∧ args0 = args0' := by
      have := (Except.ok.injEq .. ▸ hp')
      exact ⟨(Prod.mk.injEq .. ▸ this).1, (Prod.mk.injEq .. ▸ this).2⟩
    obtain ⟨rfl, rfl⟩ := hn
    constructor
    · intro hm0
      rcases hsub with ⟨-, hr⟩ | ⟨ke, hm, -, -⟩ | ⟨outv, hm, -, -⟩
      · exact hr
      · rw [hm0] at hm; cases hm
      · rw [hm0] at hm; cases hm
    · intro ke hm1 ht1
      rcases hsub with ⟨hm, -⟩ | ⟨ke', -, ht, hr⟩ | ⟨outv, -, ht, -⟩
      · rw [hm1] at hm; cases hm
      · rw [ht1] at ht
        injection ht with hke
        subst hke
        exact hr
      · rw [ht1] at ht; cases ht

/-- Witness for C4 amended: the `ghost_tool` request raises, and a
`describe_table` call whose engine raises becomes an `ERROR:` observation. -/
theorem call_tool_error_handling_amended_witness :
    stepAgent dbEx 0 initState ghostOut =
      ⟨.exn ("Tool '" ++ "ghost_tool" ++ "' not found"), logState 0 initState ghostOut,
        false⟩ ∧
    stepAgent dbEx 0 initState "ACTION: describe_table\x7b\"table_name\": \"sample\"\x7d" =
      ⟨.cont, { logState 0 initState
          "ACTION: describe_table\x7b\"table_name\": \"sample\"\x7d" with
        history_blocks := (logState 0 initState
          "ACTION: describe_table\x7b\"table_name\": \"sample\"\x7d").history_blocks ++
          [dispatchBlock (extract_section
              "ACTION: describe_table\x7b\"table_name\": \"sample\"\x7d" "THOUGHT")
            "describe_table"
            (if "describe_table" = "describe_table" then
              normTableArg [("table_name", Json.str "sample")]
             else [("table_name", Json.str "sample")])
            ("ERROR: " ++ "OperationalError" ++ ": " ++ "no such table: sample")] },
        true⟩ := by
  constructor
  · exact (call_tool_error_handling_amended dbEx 0 initState ghostOut "ghost_tool" []
      (by decide) (by rfl)).1 (by decide)
  · exact (call_tool_error_handling_amended dbEx 0 initState
      "ACTION: describe_table\x7b\"table_name\": \"sample\"\x7d" "describe_table"
      [("table_name", Json.str "sample")] (by decide) (by rfl)).2
      ("OperationalError", "no such table: sample") (by decide) (by rfl)

/-! ## C10: the step budget -/

theorem stepAgent_cont_of (db : DB) (i : Nat) (s : AgentState) (out : String)
    (hfin : extract_section out "FINAL ANSWER" = "") (hok : toolOkB out = true) :
    (stepAgent db i s out).result = .cont := by
  rcases stepAgent_shape db i s out with
    ⟨hf, -, -⟩ | ⟨hf, -, -⟩ | ⟨-, e, -, hr⟩ | ⟨-, n, args0, hp', hsub⟩
  · exact absurd hfin hf
  · exact absurd hfin hf
  · rw [hr]
  · rcases hsub with ⟨hm, hr⟩ | ⟨ke, -, -, hr⟩ | ⟨outv, -, -, hr⟩
    · unfold toolOkB at hok
      rw [hp'] at hok
      change toolNames.contains n = true at hok
      rw [hm] at hok
      cases hok
    · rw [hr]
    · rw [hr]

/-- Counterexample to C10: a model that never emits `FINAL ANSWER` but
names an unknown tool makes `run` (step limit 3) terminate on its first
iteration with an uncaught exception instead of returning the degraded
step-budget message. -/
theorem run_unknown_tool_breaks_budget :
    extract_section ghostOut "FINAL ANSWER" = "" ∧
    runAux dbEx (fun _ => ghostOut) 3 0 initState =
      (.exn "Tool 'ghost_tool' not found",
       ⟨[], ["[STEP 0] THOUGHT: (none)"], ⟨[], [], []⟩⟩) := by
  exact ⟨by decide, by decide⟩

/-- C10 amended: with a step limit of 3 and a model whose first three
outputs contain no `FINAL ANSWER` section and never request an
unregistered tool name, `run` performs exactly three iterations and
returns the degraded message summarising the final history; an unknown
tool name instead aborts the run early with an uncaught exception. -/
theorem run_step_budget_amended (db : DB) (outs : Nat → String) (s0 : AgentState)
    (hfin : ∀ i, i < 3 → extract_section (outs i) "FINAL ANSWER" = "")
    (hok : ∀ i, i < 3 → toolOkB (outs i) = true) :
    runAux db outs 3 0 s0 =
      (.degraded (maxStepMsg (stepAgent db 2 (stepAgent db 1
          (stepAgent db 0 s0 (outs 0)).state (outs 1)).state (outs 2)).state.history_blocks),
       (stepAgent db 2 (stepAgent db 1
          (stepAgent db 0 s0 (outs 0)).state (outs 1)).state (outs 2)).state) := by
  have h0 := stepAgent_cont_of db 0 s0 (outs 0) (hfin 0 (by norm_num)) (hok 0 (by norm_num))
  have h1 := stepAgent_cont_of db 1 (stepAgent db 0 s0 (outs 0)).state (outs 1)
    (hfin 1 (by norm_num)) (hok 1 (by norm_num))
  have h2 := stepAgent_cont_of db 2 (stepAgent db 1
      (stepAgent db 0 s0 (outs 0)).state (outs 1)).state (outs 2)
    (hfin 2 (by norm_num)) (hok 2 (by norm_num))
  simp only [runAux, h0, h1, h2]

/-- Witness for C10 amended: a model that always answers `think` (which
parses to no action) exhausts the budget in exactly three iterations. -/
theorem run_step_budget_amended_witness :
    runAux dbEx (fun _ => "think") 3 0 initState =
      (.degraded (maxStepMsg (stepAgent dbEx 2 (stepAgent dbEx 1
          (stepAgent dbEx 0 initState "think").state "think").state "think").state.history_blocks),
       (stepAgent dbEx 2 (stepAgent dbEx 1
          (stepAgent dbEx 0 initState "think").state "think").state "think").state) :=
  run_step_budget_amended dbEx (fun _ => "think") initState
    (fun _ _ => by show extract_section "think" "FINAL ANSWER" = ""; decide)
    (fun _ _ => by show toolOkB "think" = true; decide)

/-! ## C8: state across questions -/

theorem stepAgent_history_extends (db : DB) (i : Nat) (s : AgentState) (out : String) :
    s.history_blocks <+: (stepAgent db i s out).state.history_blocks := by
  rcases stepAgent_shape db i s out with
    ⟨-, -, hr⟩ | ⟨-, -, hr⟩ | ⟨-, e, -, hr⟩ | ⟨-, n, args0, -, hsub⟩
  · rw [hr]; exact List.prefix_append ..
  · rw [hr]; exact List.prefix_rfl
  · rw [hr]; exact List.prefix_append ..
  · rcases hsub with ⟨-, hr⟩ | ⟨ke, -, -, hr⟩ | ⟨outv, -, -, hr⟩
    · rw [hr]; exact List.prefix_rfl
    · rw [hr]; exact List.prefix_append ..
    · rw [hr]; exact List.prefix_append ..

/-- Counterexample to C8: after one question is answered on an agent, a
second `run` call starts from the first question's surviving history and
cache — its very first output `FINAL ANSWER: leaked` is returned
immediately (the no-evidence guard sees the stale block), with no tool
ever dispatched for the second question. -/
theorem run_state_leaks_across_questions :
    (SQLAgent_run dbEx leakOuts1 2 initState).1 = .answer "two tables" ∧
    (SQLAgent_run dbEx leakOuts1 2 initState).2.history_blocks = [leakBlock] ∧
    (SQLAgent_run dbEx leakOuts1 2 initState).2.cache.tables = ["emp", "sample"] ∧
    (SQLAgent_run dbEx leakOuts2 2 (SQLAgent_run dbEx leakOuts1 2 initState).2).1 =
      .answer "leaked" ∧
    (SQLAgent_run dbEx leakOuts2 2
      (SQLAgent_run dbEx leakOuts1 2 initState).2).2.history_blocks = [leakBlock] := by
  decide

/-- C8 amended: history and cache are initialised empty by `__init__`, but
`run` never resets them — the history a `run` call starts from survives as
a prefix of the history it ends with, so trace blocks (and cache entries)
from one question remain visible to later `run` calls on the same agent. -/
theorem run_never_resets_state (db : DB) (outs : Nat → String) :
    initState.history_blocks = [] ∧ initState.cache = ⟨[], [], []⟩ ∧
    ∀ (fuel idx : Nat) (s : AgentState),
      s.history_blocks <+: (runAux db outs fuel idx s).2.history_blocks := by
  refine ⟨rfl, rfl, ?_⟩
  intro fuel
  induction fuel with
  | zero =>
    intro idx s
    exact List.prefix_rfl
  | succ fuel ih =>
    intro idx s
    simp only [runAux]
    have hpre := stepAgent_history_extends db idx s (outs idx)
    cases hres : (stepAgent db idx s (outs idx)).result with
    | ret b => exact hpre
    | exn m => exact hpre
    | cont => exact hpre.trans (ih (idx + 1) (stepAgent db idx s (outs idx)).state)

/-! ## C9: the parser repair chain -/

theorem findActionAux_none {l : List Char}
    (h : containsCI "ACTION:".data l = false) : findActionAux l = none := by
  induction l with
  | nil => rfl
  | cons c rest ih =>
    have h2 : matchesCI "ACTION:".data (c :: rest) = false ∧
        containsCI "ACTION:".data rest = false := by
      unfold containsCI at h
      exact ⟨(Bool.or_eq_false_iff.mp h).1, (Bool.or_eq_false_iff.mp h).2⟩
    unfold findActionAux
    rw [h2.1]
    exact ih h2.2

/-- C9: `ACTION: describe_table\x7b'table_name': 'sample'\x7d` (single
quotes) parses to `describe_table` with `\x7b"table_name": "sample"\x7d`
via the quote-normalisation repair (strict JSON decoding fails, the quote
fix makes it succeed), and any text with no `ACTION:` marker (matched
case-insensitively) raises the `ParseError` naming the expected format. -/
theorem parse_action_repair_chain :
    parse_action "ACTION: describe_table\x7b'table_name': 'sample'\x7d" =
      .ok ("describe_table", [("table_name", Json.str "sample")]) ∧
    jsonLoads "\x7b'table_name': 'sample'\x7d" = none ∧
    fix_json_quotes "\x7b'table_name': 'sample'\x7d" =
      "\x7b\"table_name\": \"sample\"\x7d" ∧
    (∀ text : String, containsCI "ACTION:".data text.data = false →
      parse_action text = .error noActionMsg) := by
  refine ⟨rfl, rfl, rfl, ?_⟩
  intro text h
  unfold parse_action
  rw [findActionAux_none h]

/-- Witness for C9: a thought with no `ACTION:` marker raises the
`ParseError`. -/
theorem parse_action_repair_chain_witness :
    parse_action "THOUGHT: I will explore the schema first." = .error noActionMsg :=
  parse_action_repair_chain.2.2.2 "THOUGHT: I will explore the schema first." (by decide)

end SQLAgentModel
